import Mathlib

/-!
Verification of the action-distribution module
(`mlagents/trainers/torch/action_model.py`) against its specification.

The tensor primitives, the two distribution families and the scoring utility
`ModelUtils.get_probs_and_entropy` live outside the repository sample; they are
modelled from the specification (each such definition says so in its doc
comment).  The `ActionModel` class itself — construction, `_get_dists`,
`_sample_action`, `evaluate`, `get_action_out` and `forward` — is translated
directly from the source.
-/

set_option autoImplicit false

namespace ActionModelProof

/-- A batched rank-2 tensor of shape `[batch, width]`.  The last-dimension
width is carried explicitly (as torch shape metadata is), alongside the rows
(one row per batch element). -/
structure MT where
  width : Nat
  rows : List (List Int)
deriving DecidableEq, Repr

/-- Batch size: the size of axis 0. -/
def MT.batch (t : MT) : Nat := t.rows.length

/-- Column slicing `t[:, off : off+len]` along the last axis. -/
def MT.slice (t : MT) (off len : Nat) : MT :=
  ⟨len, t.rows.map (fun r => (r.drop off).take len)⟩

/-- Rank-1 indexing `t[..., i]`: one column as a `[batch]`-shaped vector. -/
def MT.col (t : MT) (i : Nat) : List Int :=
  t.rows.map (fun r => r.getD i 0)

/-- Sum of the sizes preceding index `k` in a split-size list. -/
def sumBefore (sizes : List Nat) (k : Nat) : Nat := (sizes.take k).sum

/-- `torch.split(t, sizes, dim=1)`: slices the tensor along its last axis into
`sizes.length` pieces; fails with a shape-mismatch error unless the sizes sum
to the tensor's width. -/
def splitCols (t : MT) (sizes : List Nat) : Option (List MT) :=
  if t.width = sizes.sum then
    some ((List.range sizes.length).map fun k => t.slice (sumBefore sizes k) (sizes.getD k 0))
  else none

/-- `torch.cat([a, b], dim=1)`: requires equal batch sizes. -/
def cat2 (a b : MT) : Option MT :=
  if a.batch = b.batch then some ⟨a.width + b.width, a.rows.zipWith (· ++ ·) b.rows⟩
  else none

/-- `torch.cat(ts, dim=1)`: fails on the empty list, as torch does. -/
def catList1 : List MT → Option MT
  | [] => none
  | t :: ts => ts.foldlM cat2 t

/-- A tensor of rank 1, 2 or 3, as passed between the sampling, structuring and
scoring steps. -/
inductive Tens where
  | r1 (v : List Int)
  | r2 (t : MT)
  | r3 (v : List (List (List Int)))
deriving DecidableEq, Repr

/-- `x.unsqueeze(-1)`: appends a trailing axis of size one. -/
def Tens.unsqueezeLast : Tens → Tens
  | .r1 v => .r2 ⟨1, v.map (fun x => [x])⟩
  | .r2 t => .r3 (t.rows.map (fun r => r.map (fun x => [x])))
  | .r3 v => .r3 v

/-- Modelled from the spec: a diagonal-Gaussian distribution instance over
`contSize` continuous dimensions, produced fresh per call by the continuous
factory from the current encoding (`GaussianDistribution` is outside the
repository sample).  `mean` and `logStd` have shape `[batch, contSize]`. -/
structure GaussianInst where
  contSize : Nat
  tanhSquash : Bool
  mean : MT
  logStd : MT
deriving DecidableEq, Repr

/-- Modelled from the spec: the Gaussian factory's learned parameterization is
an external black box; it is modelled as a fixed function of the encoding with
the contractually required `[batch, contSize]` shapes (`conditional_sigma`
selects whether the deviation depends on the encoding). -/
def mkGaussianInst (contSize : Nat) (conditionalSigma tanhSquash : Bool) (enc : MT) :
    GaussianInst :=
  { contSize := contSize
    tanhSquash := tanhSquash
    mean := ⟨contSize, enc.rows.map (fun r =>
      (List.range contSize).map (fun i => r.sum + Int.ofNat i))⟩
    logStd := ⟨contSize, enc.rows.map (fun r =>
      (List.range contSize).map (fun i =>
        if conditionalSigma then r.sum - Int.ofNat i else 1))⟩ }

/-- Modelled from the spec: the bounded invertible squashing transform applied
to continuous samples when `tanh_squash` is set (an integer stand-in for tanh
with the same bounding contract). -/
def squashInt (tanhSquash : Bool) (x : Int) : Int :=
  if tanhSquash then max (-1) (min 1 x) else x

/-- Modelled from the spec: a stochastic draw of shape `[batch, contSize]`,
consuming the noise source `g`. -/
def GaussianInst.sample (d : GaussianInst) (g : Nat → Int) : Tens :=
  .r2 ⟨d.contSize, d.mean.rows.enum.map (fun bi =>
    bi.2.enum.map (fun ij => squashInt d.tanhSquash (ij.2 + g (bi.1 * d.contSize + ij.1))))⟩

/-- Negated squared distance of a value row from a mean row (the concrete
stand-in for the per-row Gaussian log-density). -/
def rowQuad (x mu : List Int) : Int := -((x.zipWith (fun a b => (a - b) * (a - b)) mu).sum)

/-- Per-batch-element scores of a rank-2 value against the instance's mean. -/
def GaussianInst.score (d : GaussianInst) (vr : List (List Int)) : List Int :=
  (vr.zipWith rowQuad d.mean.rows).map (fun s => s - (if d.tanhSquash then 1 else 0))

/-- Modelled from the spec: `log_prob(value) → [batch]`-shaped tensor.  The
value must be the continuous sub-action at its native width `[batch, contSize]`
(a rank-1 column is accepted as the width-1 block when `contSize = 1`);
anything else is a shape-mismatch error. -/
def GaussianInst.logProb (d : GaussianInst) (v : Tens) : Option (List Int) :=
  match v with
  | .r2 t =>
    if t.width = d.contSize ∧ t.batch = d.mean.batch then some (d.score t.rows) else none
  | .r1 c =>
    if d.contSize = 1 ∧ c.length = d.mean.batch then some (d.score (c.map (fun x => [x])))
    else none
  | .r3 _ => none

/-- Modelled from the spec: `entropy() → [batch]`-shaped tensor. -/
def GaussianInst.entropy (d : GaussianInst) : List Int :=
  d.logStd.rows.map (fun r => r.sum)

/-- Modelled from the spec: the Gaussian's externally-exported representation
is its mean (shape `[batch, contSize]`), not a stochastic sample. -/
def GaussianInst.exported (d : GaussianInst) : MT := d.mean

/-- Modelled from the spec: one masked categorical distribution instance for a
single discrete branch with `branchSize` choices, produced fresh per call
(`MultiCategoricalDistribution` is outside the repository sample).  `logits`
has shape `[batch, branchSize]`. -/
structure CategoricalInst where
  branchSize : Nat
  logits : MT
deriving DecidableEq, Repr

/-- Modelled from the spec: the branch's logits are a fixed function of the
encoding, with choices whose mask entry is not positive pushed to a large
negative value (zero sampling probability). -/
def mkCategoricalInst (branchSize : Nat) (enc maskSlice : MT) : CategoricalInst :=
  { branchSize := branchSize
    logits := ⟨branchSize, enc.rows.zipWith (fun r mrow =>
      (List.range branchSize).map (fun j =>
        r.sum + Int.ofNat j + (if mrow.getD j 0 ≤ 0 then -(1000000 : Int) else 0)))
      maskSlice.rows⟩ }

/-- Modelled from the spec: a stochastic draw of branch indices, one per batch
element (`[batch]`-shaped), consuming the noise source `g`. -/
def CategoricalInst.sample (d : CategoricalInst) (g : Nat → Int) : Tens :=
  .r1 ((List.range d.logits.batch).map (fun b =>
    Int.ofNat ((g b).natAbs % (max 1 d.branchSize))))

/-- Modelled from the spec: `log_prob(value) → [batch]`-shaped tensor; the
value is a `[batch]`-shaped column of choice indices. -/
def CategoricalInst.logProb (d : CategoricalInst) (v : Tens) : Option (List Int) :=
  match v with
  | .r1 c =>
    if c.length = d.logits.batch then
      some (c.zipWith (fun idx r => r.getD idx.toNat (-1000000)) d.logits.rows)
    else none
  | _ => none

/-- Modelled from the spec: `entropy() → [batch]`-shaped tensor. -/
def CategoricalInst.entropy (d : CategoricalInst) : List Int :=
  d.logits.rows.map (fun r => r.foldl (fun a x => a + x * x) 0)

/-- Index of the greatest entry of a row (0 on the empty row). -/
def argmaxIdx (r : List Int) : Nat :=
  r.enum.foldl (fun best p => if r.getD best 0 < p.2 then p.1 else best) 0

/-- Modelled from the spec: the categorical's externally-exported
representation is its per-row arg-max, one column (`[batch, 1]`). -/
def CategoricalInst.exported (d : CategoricalInst) : MT :=
  ⟨1, d.logits.rows.map (fun r => [Int.ofNat (argmaxIdx r)])⟩

/-- A distribution instance: the polymorphic capability set
{sample, log_prob, entropy, exported_model_output, structure_action}. -/
inductive DistInstance where
  | gauss (d : GaussianInst)
  | cat (d : CategoricalInst)
deriving DecidableEq, Repr

def DistInstance.isGaussian : DistInstance → Bool
  | .gauss _ => true
  | .cat _ => false

def DistInstance.sample : DistInstance → (Nat → Int) → Tens
  | .gauss d, g => d.sample g
  | .cat d, g => d.sample g

def DistInstance.logProb : DistInstance → Tens → Option (List Int)
  | .gauss d, v => d.logProb v
  | .cat d, v => d.logProb v

def DistInstance.entropy : DistInstance → List Int
  | .gauss d => d.entropy
  | .cat d => d.entropy

/-- `exported_model_output()`. -/
def DistInstance.exported : DistInstance → MT
  | .gauss d => d.exported
  | .cat d => d.exported

/-- Modelled from the spec: `structure_action` keeps a continuous sample at
its native width `[batch, contSize]` (squeezing the unsqueezed trailing axis)
and keeps a discrete sample as a single trailing column `[batch, 1]`. -/
def DistInstance.structureAction : DistInstance → Tens → Option MT
  | .gauss d, .r3 v => some ⟨d.contSize, v.map (fun row => row.map (fun cell => cell.headD 0))⟩
  | .cat _, .r2 t => some t
  | _, _ => none

/-- A distribution factory, as appended to `self._distributions` by
`ActionModel.__init__`. -/
inductive DistFactory where
  | gaussian (encodingSize actSize : Nat) (conditionalSigma tanhSquash : Bool)
  | multiCategorical (encodingSize : Nat) (branches : List Nat)
deriving DecidableEq, Repr

/-- The per-branch categorical instances of the discrete factory: instance `k`
is built from branch `k`'s size and the slice of the action mask covering that
branch's valid-choice set. -/
def branchInstances (branches : List Nat) (enc mask : MT) : List DistInstance :=
  (List.range branches.length).map (fun k =>
    .cat (mkCategoricalInst (branches.getD k 0) enc
      (mask.slice (sumBefore branches k) (branches.getD k 0))))

/-- Modelled from the spec (4.2): invoking a factory with `(encoding, mask)`.
A continuous factory ignores the mask and returns exactly one instance; a
discrete factory returns one instance per branch, each respecting its branch's
mask slice, and fails with a shape-mismatch error if the mask width does not
equal the total discrete-choice width. -/
def DistFactory.fwd : DistFactory → MT → MT → Option (List DistInstance)
  | .gaussian _ actSize cs ts, enc, _ => some [.gauss (mkGaussianInst actSize cs ts enc)]
  | .multiCategorical _ branches, enc, mask =>
    if mask.width = branches.sum then some (branchInstances branches enc mask) else none

/-- The external, immutable action-space descriptor (`ActionSpec`). -/
structure ActionSpec where
  continuousActionSize : Nat
  discreteActionBranches : List Nat
deriving DecidableEq, Repr

/-- `discrete_action_size`: the number of discrete branches. -/
def ActionSpec.discreteActionSize (s : ActionSpec) : Nat :=
  s.discreteActionBranches.length

/-- The `ActionModel` module state, as set up by `__init__`. -/
structure ActionModel where
  encodingSize : Nat
  continuousActSize : Nat
  discreteActBranches : List Nat
  discreteActSize : Nat
  actionSpec : ActionSpec
  splitList : List Nat
  distributions : List DistFactory
deriving DecidableEq, Repr

/-- `ActionModel.__init__(hidden_size, action_spec, conditional_sigma,
tanh_squash)`: appends the Gaussian factory and the continuous split entry iff
`continuous_act_size > 0`, then the multi-categorical factory and
`discrete_act_size` split entries of 1 iff `discrete_act_size > 0`. -/
def mkActionModel (hiddenSize : Nat) (actionSpec : ActionSpec)
    (conditionalSigma tanhSquash : Bool) : ActionModel :=
  let C := actionSpec.continuousActionSize
  let D := actionSpec.discreteActionSize
  let dists1 : List DistFactory :=
    if 0 < C then [.gaussian hiddenSize C conditionalSigma tanhSquash] else []
  let split1 : List Nat := if 0 < C then [C] else []
  let dists2 :=
    if 0 < D then dists1 ++ [.multiCategorical hiddenSize actionSpec.discreteActionBranches]
    else dists1
  let split2 := if 0 < D then split1 ++ List.replicate D 1 else split1
  { encodingSize := hiddenSize
    continuousActSize := C
    discreteActBranches := actionSpec.discreteActionBranches
    discreteActSize := D
    actionSpec := actionSpec
    splitList := split2
    distributions := dists2 }

/-- `ActionModel._get_dists(inputs, masks)`: invokes each factory in order and
appends all produced instances into one flat list. -/
def ActionModel.getDists (m : ActionModel) (inputs masks : MT) : Option (List DistInstance) :=
  m.distributions.foldlM (fun acc f => (f.fwd inputs masks).map (fun l => acc ++ l)) []

/-- `ActionModel._sample_action(dists)`: one draw per distribution instance. -/
def sampleAction (g : Nat → Int) (dists : List DistInstance) : List Tens :=
  dists.map (fun d => d.sample g)

/-- Elementwise sum of `[batch]`-shaped vectors, starting from zeros. -/
def sumCols (batch : Nat) (cols : List (List Int)) : List Int :=
  cols.foldl (fun acc c => acc.zipWith (· + ·) c) (List.replicate batch 0)

/-- Modelled from the spec: `ModelUtils.get_probs_and_entropy(action_list,
dists)` (outside the repository sample) scores each action piece against its
corresponding distribution instance — the correspondence is one-to-one, so a
length mismatch between the two lists is a contract violation — and the
per-instance `[batch]`-shaped log-probs and entropies are summed across
components with plain addition. -/
def getProbsAndEntropy (batch : Nat) (actions : List Tens) (dists : List DistInstance) :
    Option (List Int × List Int) :=
  if actions.length = dists.length then
    ((actions.zip dists).mapM (fun (p : Tens × DistInstance) => p.2.logProb p.1)).map
      (fun lps => (sumCols batch lps, sumCols batch (dists.map (fun d => d.entropy))))
  else none

/-- The per-column decomposition performed inside `ActionModel.evaluate`:
`for split_action in split_actions: action_list = [split_action[..., i] for i
in range(split_action.shape[-1])]; action_lists += action_list`. -/
def explodeCols (splitActions : List MT) : List Tens :=
  splitActions.flatMap (fun sa => (List.range sa.width).map (fun i => Tens.r1 (sa.col i)))

/-- `ActionModel.evaluate(inputs, masks, actions)`.  The noise source is part
of the uniform operation signature (the module owns torch's generator state);
`evaluate` never reads it. -/
def ActionModel.evaluate (m : ActionModel) (_g : Nat → Int) (inputs masks actions : MT) :
    Option (List Int × List Int) := do
  let dists ← m.getDists inputs masks
  let splitActions ← splitCols actions m.splitList
  let actionLists := explodeCols splitActions
  getProbsAndEntropy actions.batch actionLists dists

/-- `ActionModel.get_action_out(inputs, masks)`: returns
`(dists[0].exported_model_output(), dists[1].exported_model_output(),
torch.cat([d.exported_model_output() for d in dists], dim=1))`; indexing an
absent entry or concatenating an empty list fails. -/
def ActionModel.getActionOut (m : ActionModel) (inputs masks : MT) :
    Option (MT × MT × MT) := do
  let dists ← m.getDists inputs masks
  let d0 ← dists.get? 0
  let d1 ← dists.get? 1
  let combined ← catList1 (dists.map (fun d => d.exported))
  return (d0.exported, d1.exported, combined)

/-- `ActionModel.forward(inputs, masks)` (`sample_and_score`): samples each
instance, structures each sample (`unsqueeze(-1)` then `structure_action`),
concatenates the structured outputs along the action-width axis, and scores
the raw samples against the instances. -/
def ActionModel.forward (m : ActionModel) (g : Nat → Int) (inputs masks : MT) :
    Option (MT × List Int × List Int) := do
  let dists ← m.getDists inputs masks
  let actionLists := sampleAction g dists
  let actionOuts ← (actionLists.zip dists).mapM
    (fun (p : Tens × DistInstance) => p.2.structureAction p.1.unsqueezeLast)
  let pe ← getProbsAndEntropy inputs.batch actionLists dists
  let action ← catList1 actionOuts
  return (action, pe.1, pe.2)

/-! Concrete fixtures used by counterexamples and witnesses. -/

def cexEnc : MT := ⟨1, [[1]]⟩
def cexMask0 : MT := ⟨0, [[]]⟩
def cexMask2 : MT := ⟨2, [[1, 1]]⟩
def cexMask3 : MT := ⟨3, [[1, 1, 1]]⟩
def cexMask5 : MT := ⟨5, [[1, 1, 1, 1, 1]]⟩
def cexActions0 : MT := ⟨0, [[]]⟩
def cexActions3 : MT := ⟨3, [[5, 7, 2]]⟩
def zeroNoise : Nat → Int := fun _ => 0

/-- Two continuous dimensions and one discrete branch of three choices. -/
def modelC2D1 : ActionModel := mkActionModel 1 ⟨2, [3]⟩ false false

/-- One continuous dimension and two discrete branches of sizes 2 and 3. -/
def modelC1D2 : ActionModel := mkActionModel 1 ⟨1, [2, 3]⟩ false false

/-- No continuous dimensions and two discrete branches of sizes 2 and 3. -/
def modelC0D2 : ActionModel := mkActionModel 1 ⟨0, [2, 3]⟩ false false

/-- Degenerate: no continuous dimensions and no discrete branches. -/
def modelC0D0 : ActionModel := mkActionModel 1 ⟨0, []⟩ false false

/-! Helper lemmas. -/

lemma branchInstances_length (branches : List Nat) (enc mask : MT) :
    (branchInstances branches enc mask).length = branches.length := by
  simp [branchInstances]

lemma branchInstances_not_gaussian (branches : List Nat) (enc mask : MT) :
    ∀ d ∈ branchInstances branches enc mask, d.isGaussian = false := by
  intro d hd
  simp only [branchInstances, List.mem_map, List.mem_range] at hd
  obtain ⟨k, -, rfl⟩ := hd
  rfl

lemma branchInstances_get? (branches : List Nat) (enc mask : MT) (k : Nat)
    (hk : k < branches.length) :
    (branchInstances branches enc mask).get? k
      = some (.cat (mkCategoricalInst (branches.getD k 0) enc
          (mask.slice (sumBefore branches k) (branches.getD k 0)))) := by
  simp [branchInstances, List.get?_eq_getElem?, List.getElem?_map, List.getElem?_range, hk]

/-- `_get_dists` of a freshly constructed module, in closed form: the
continuous instance (iff `continuous_size > 0`) followed by one categorical
instance per branch. -/
lemma getDists_mk_eq (hiddenSize C : Nat) (branches : List Nat) (cs ts : Bool)
    (enc mask : MT) (hm : 0 < branches.length → mask.width = branches.sum) :
    (mkActionModel hiddenSize ⟨C, branches⟩ cs ts).getDists enc mask
      = some ((if 0 < C then [DistInstance.gauss (mkGaussianInst C cs ts enc)] else [])
          ++ branchInstances branches enc mask) := by
  rcases Nat.eq_zero_or_pos branches.length with hD | hD
  · have hb : branches = [] := List.length_eq_zero.mp hD
    subst hb
    by_cases hC : 0 < C <;>
      simp [mkActionModel, ActionModel.getDists, ActionSpec.discreteActionSize,
        DistFactory.fwd, hC, branchInstances, List.foldlM]
  · have hw := hm hD
    by_cases hC : 0 < C <;>
      simp [mkActionModel, ActionModel.getDists, ActionSpec.discreteActionSize,
        DistFactory.fwd, hC, hD, hw, List.foldlM]

lemma foldlM_cat2 (B : Nat) :
    ∀ (ts : List MT) (t : MT), t.batch = B → (∀ u ∈ ts, u.batch = B) →
      ∃ c, ts.foldlM cat2 t = some c ∧ c.batch = B ∧
        c.width = t.width + (ts.map MT.width).sum := by
  intro ts
  induction ts with
  | nil => exact fun t ht _ => ⟨t, by simp [List.foldlM], ht, by simp⟩
  | cons u us ih =>
    intro t ht hus
    have hu : u.batch = B := hus u (by simp)
    have hb2 : (MT.mk (t.width + u.width) (t.rows.zipWith (· ++ ·) u.rows)).batch = B := by
      simp only [MT.batch] at ht hu ⊢
      simp [List.length_zipWith, ht, hu]
    obtain ⟨c, hc, hcb, hcw⟩ := ih (MT.mk (t.width + u.width) (t.rows.zipWith (· ++ ·) u.rows))
      hb2 (fun v hv => hus v (by simp [hv]))
    refine ⟨c, ?_, hcb, ?_⟩
    · simpa [List.foldlM, cat2, ht, hu] using hc
    · simp only [hcw, List.map_cons, List.sum_cons]
      omega

lemma catList1_some (B : Nat) (ts : List MT) (hne : ts ≠ [])
    (hb : ∀ u ∈ ts, u.batch = B) :
    ∃ c, catList1 ts = some c ∧ c.batch = B ∧ c.width = (ts.map MT.width).sum := by
  cases ts with
  | nil => exact absurd rfl hne
  | cons t tl =>
    obtain ⟨c, h1, h2, h3⟩ := foldlM_cat2 B tl t (hb t (by simp))
      (fun u hu => hb u (by simp [hu]))
    exact ⟨c, h1, h2, by simpa using h3⟩

lemma exported_batch_of_mk (C : Nat) (cs ts : Bool) (branches : List Nat) (enc mask : MT)
    (hbm : 0 < branches.length → mask.batch = enc.batch) :
    ∀ d ∈ (if 0 < C then [DistInstance.gauss (mkGaussianInst C cs ts enc)] else [])
        ++ branchInstances branches enc mask,
      d.exported.batch = enc.batch := by
  intro d hd
  rcases List.mem_append.mp hd with h | h
  · have : d = DistInstance.gauss (mkGaussianInst C cs ts enc) := by
      by_cases hC : 0 < C <;> simp [hC] at h
      exact h
    subst this
    simp [DistInstance.exported, GaussianInst.exported, mkGaussianInst, MT.batch]
  · simp only [branchInstances, List.mem_map, List.mem_range] at h
    obtain ⟨k, hk, rfl⟩ := h
    have hb : mask.batch = enc.batch := hbm (Nat.pos_of_ne_zero (by omega))
    simp only [MT.batch] at hb ⊢
    simp [DistInstance.exported, CategoricalInst.exported, mkCategoricalInst,
      MT.slice, List.length_zipWith, hb]

lemma exported_width_of_mk (C : Nat) (cs ts : Bool) (branches : List Nat) (enc mask : MT) :
    (((if 0 < C then [DistInstance.gauss (mkGaussianInst C cs ts enc)] else [])
        ++ branchInstances branches enc mask).map (fun d => d.exported.width)).sum
      = (if 0 < C then C else 0) + branches.length := by
  have hbr : ((branchInstances branches enc mask).map (fun d => d.exported.width)).sum
      = branches.length := by
    have : (branchInstances branches enc mask).map (fun d => d.exported.width)
        = List.replicate branches.length 1 := by
      apply List.eq_replicate_iff.mpr
      refine ⟨by simp [branchInstances], ?_⟩
      intro w hw
      simp only [List.mem_map] at hw
      obtain ⟨d, hd, rfl⟩ := hw
      simp only [branchInstances, List.mem_map, List.mem_range] at hd
      obtain ⟨k, -, rfl⟩ := hd
      rfl
    simp [this, List.sum_replicate]
  by_cases hC : 0 < C
  · have hg : (DistInstance.gauss (mkGaussianInst C cs ts enc)).exported.width = C := rfl
    simp [hC, List.map_append, List.sum_append, hbr, hg]
  · simp [hC, hbr]

/-- `get_action_out` of a freshly constructed module holding at least two
distribution instances: it returns the exports of the instances at positional
indices 0 and 1 together with the concatenation of every instance's export. -/
lemma getActionOut_struct (hiddenSize C : Nat) (branches : List Nat) (cs ts : Bool)
    (enc mask : MT) (hm : 0 < branches.length → mask.width = branches.sum)
    (hbm : 0 < branches.length → mask.batch = enc.batch)
    (h2 : 2 ≤ (if 0 < C then 1 else 0) + branches.length) :
    ∃ L d0 d1 comb,
      (mkActionModel hiddenSize ⟨C, branches⟩ cs ts).getDists enc mask = some L ∧
      L = (if 0 < C then [DistInstance.gauss (mkGaussianInst C cs ts enc)] else [])
          ++ branchInstances branches enc mask ∧
      L.get? 0 = some d0 ∧ L.get? 1 = some d1 ∧
      catList1 (L.map (fun d => d.exported)) = some comb ∧
      comb.batch = enc.batch ∧
      comb.width = (if 0 < C then C else 0) + branches.length ∧
      (mkActionModel hiddenSize ⟨C, branches⟩ cs ts).getActionOut enc mask
        = some (d0.exported, d1.exported, comb) := by
  have hL := getDists_mk_eq hiddenSize C branches cs ts enc mask hm
  set L := (if 0 < C then [DistInstance.gauss (mkGaussianInst C cs ts enc)] else [])
      ++ branchInstances branches enc mask with hLdef
  have hlen : L.length = (if 0 < C then 1 else 0) + branches.length := by
    by_cases hC : 0 < C <;> simp [hLdef, hC, branchInstances_length] <;> omega
  have h0 : 0 < L.length := by omega
  have h1 : 1 < L.length := by omega
  obtain ⟨d0, hd0⟩ : ∃ d0, L.get? 0 = some d0 := ⟨L.get ⟨0, h0⟩, List.get?_eq_get h0⟩
  obtain ⟨d1, hd1⟩ : ∃ d1, L.get? 1 = some d1 := ⟨L.get ⟨1, h1⟩, List.get?_eq_get h1⟩
  have hmapne : L.map (fun d => d.exported) ≠ [] := by
    intro h
    rw [List.map_eq_nil_iff] at h
    rw [h] at h0
    simp at h0
  have hbatches : ∀ u ∈ L.map (fun d => d.exported), u.batch = enc.batch := by
    intro u hu
    obtain ⟨d, hd, rfl⟩ := List.mem_map.mp hu
    exact exported_batch_of_mk C cs ts branches enc mask hbm d (hLdef ▸ hd)
  obtain ⟨comb, hcat, hcb, hcw⟩ := catList1_some enc.batch _ hmapne hbatches
  refine ⟨L, d0, d1, comb, hL, hLdef, hd0, hd1, hcat, hcb, ?_, ?_⟩
  · rw [hcw, List.map_map]
    show (L.map (fun d => d.exported.width)).sum = _
    rw [hLdef]
    exact exported_width_of_mk C cs ts branches enc mask
  · have hd0g : L[0]? = some d0 := by simpa [List.get?_eq_getElem?] using hd0
    have hd1g : L[1]? = some d1 := by simpa [List.get?_eq_getElem?] using hd1
    simp [ActionModel.getActionOut, hL, hd0g, hd1g, hcat]

/-! Claim theorems. -/

/-- C1 (code bug): at the failing input — a module with two continuous
dimensions and one discrete branch, and a width-3 actions tensor — `evaluate`
slices the actions per the SplitPlan `[2, 1]` but then decomposes the blocks
into three single columns, while `_get_dists` yields only two distribution
instances; the claimed scoring of the native-width continuous block against
its own instance is therefore impossible and the call fails instead of
returning per-instance sums. -/
theorem evaluate_mispairs_continuous_block :
    modelC2D1.splitList = [2, 1] ∧
    (modelC2D1.getDists cexEnc cexMask3).map List.length = some 2 ∧
    (splitCols cexActions3 modelC2D1.splitList).map (fun l => (explodeCols l).length)
      = some 3 ∧
    modelC2D1.evaluate zeroNoise cexEnc cexMask3 cexActions3 = none := by
  decide

/-- C2 (counterexample): for the module with one continuous dimension and
discrete branches `[2, 3]`, the second component returned by `get_action_out`
is the export of the instance at index 1 only — a single column covering just
the first discrete branch — and differs from the exported representations of
the discrete instances taken one per branch. -/
theorem getActionOut_first_branch_only :
    (modelC1D2.getActionOut cexEnc cexMask5).map (fun t => t.2.1)
        ≠ (modelC1D2.getDists cexEnc cexMask5).bind
            (fun L => catList1 ((L.filter (fun d => !d.isGaussian)).map
              (fun d => d.exported))) ∧
    (modelC1D2.getActionOut cexEnc cexMask5).map (fun t => t.2.1.width) = some 1 ∧
    modelC1D2.discreteActSize = 2 := by
  decide

/-- C2 (amended): `get_action_out` returns the export of the instance at
positional index 0, the export of the instance at positional index 1 (when
both families are present, that is the first discrete branch's instance only),
and one concatenation of all per-instance exported forms in the fixed order. -/
theorem getActionOut_positional (hiddenSize C : Nat) (branches : List Nat) (cs ts : Bool)
    (enc mask : MT) (hm : 0 < branches.length → mask.width = branches.sum)
    (hbm : 0 < branches.length → mask.batch = enc.batch)
    (h2 : 2 ≤ (if 0 < C then 1 else 0) + branches.length) :
    ∃ L d0 d1 comb,
      (mkActionModel hiddenSize ⟨C, branches⟩ cs ts).getDists enc mask = some L ∧
      L.get? 0 = some d0 ∧ L.get? 1 = some d1 ∧
      catList1 (L.map (fun d => d.exported)) = some comb ∧
      (mkActionModel hiddenSize ⟨C, branches⟩ cs ts).getActionOut enc mask
        = some (d0.exported, d1.exported, comb) ∧
      (0 < C → 0 < branches.length →
        d1 = .cat (mkCategoricalInst (branches.getD 0 0) enc
          (mask.slice 0 (branches.getD 0 0)))) := by
  obtain ⟨L, d0, d1, comb, hL, hLdef, hd0, hd1, hcat, -, -, hout⟩ :=
    getActionOut_struct hiddenSize C branches cs ts enc mask hm hbm h2
  refine ⟨L, d0, d1, comb, hL, hd0, hd1, hcat, hout, ?_⟩
  intro hC hD
  rw [hLdef] at hd1
  rw [if_pos hC] at hd1
  have : (branchInstances branches enc mask).get? 0
      = some (.cat (mkCategoricalInst (branches.getD 0 0) enc
        (mask.slice 0 (branches.getD 0 0)))) := by
    have h := branchInstances_get? branches enc mask 0 hD
    simpa [sumBefore] using h
  simp only [List.get?_eq_getElem?] at hd1 this
  rw [List.getElem?_append_right (by simp)] at hd1
  simp only [List.length_singleton] at hd1
  rw [hd1] at this
  exact Option.some_injective _ this

/-- C3 (counterexample): with the continuous family absent but two discrete
branches (`continuous_size = 0`, branches `[2, 3]`), the ensemble still yields
two instances, so the index-0/index-1 unpacking of `get_action_out` succeeds
instead of failing. -/
theorem getActionOut_succeeds_without_continuous :
    modelC0D2.getActionOut cexEnc cexMask5 ≠ none ∧
    modelC0D2.continuousActSize = 0 := by
  decide

/-- C3 (amended): `get_action_out` fails by out-of-range indexing precisely
when the ensemble yields fewer than two distribution instances — that is, when
`(continuous_size > 0 ? 1 : 0) + discrete_size < 2` — and otherwise returns a
fully-formed tuple (whose first two slots are simply the instances at indices
0 and 1, whatever their families). -/
theorem getActionOut_none_iff (hiddenSize C : Nat) (branches : List Nat) (cs ts : Bool)
    (enc mask : MT) (hm : 0 < branches.length → mask.width = branches.sum)
    (hbm : 0 < branches.length → mask.batch = enc.batch) :
    ((mkActionModel hiddenSize ⟨C, branches⟩ cs ts).getActionOut enc mask = none
      ↔ (if 0 < C then 1 else 0) + branches.length < 2) := by
  rcases Nat.lt_or_ge ((if 0 < C then 1 else 0) + branches.length) 2 with hlt | hge
  · refine ⟨fun _ => hlt, fun _ => ?_⟩
    have hL := getDists_mk_eq hiddenSize C branches cs ts enc mask hm
    have hlen : ((if 0 < C then [DistInstance.gauss (mkGaussianInst C cs ts enc)] else [])
        ++ branchInstances branches enc mask).length
          = (if 0 < C then 1 else 0) + branches.length := by
      by_cases hC : 0 < C <;> simp [hC, branchInstances_length] <;> omega
    have hnone : ((if 0 < C then [DistInstance.gauss (mkGaussianInst C cs ts enc)] else [])
        ++ branchInstances branches enc mask)[1]? = none := by
      rw [List.getElem?_eq_none]
      omega
    simp [ActionModel.getActionOut, hL, hnone]
  · obtain ⟨L, d0, d1, comb, hL, -, hd0, hd1, hcat, -, -, hout⟩ :=
      getActionOut_struct hiddenSize C branches cs ts enc mask hm hbm hge
    constructor
    · intro hnone
      rw [hout] at hnone
      exact absurd hnone (by simp)
    · omega

/-- C4: for a module constructed with `continuous_size = 0` and discrete
branches `[2, 3]`, the SplitPlan is `[1, 1]` with total width 2, the combined
export returned by `get_action_out` has width 2, and no instance of the module
is a continuous (Gaussian) one, so no continuous export is produced. -/
theorem boundary_discrete_only (hiddenSize : Nat) (cs ts : Bool) (enc mask : MT)
    (hm : mask.width = 5) (hbm : mask.batch = enc.batch) :
    (mkActionModel hiddenSize ⟨0, [2, 3]⟩ cs ts).splitList = [1, 1] ∧
    (mkActionModel hiddenSize ⟨0, [2, 3]⟩ cs ts).splitList.sum = 2 ∧
    (∃ t, (mkActionModel hiddenSize ⟨0, [2, 3]⟩ cs ts).getActionOut enc mask = some t ∧
      t.2.2.width = 2) ∧
    (∀ L, (mkActionModel hiddenSize ⟨0, [2, 3]⟩ cs ts).getDists enc mask = some L →
      ∀ d ∈ L, d.isGaussian = false) := by
  have hm5 : 0 < ([2, 3] : List Nat).length → mask.width = ([2, 3] : List Nat).sum := by
    intro _
    simpa using hm
  have hbm2 : 0 < ([2, 3] : List Nat).length → mask.batch = enc.batch := fun _ => hbm
  refine ⟨?_, ?_, ?_, ?_⟩
  · simp [mkActionModel, ActionSpec.discreteActionSize]
  · simp [mkActionModel, ActionSpec.discreteActionSize]
  · obtain ⟨L, d0, d1, comb, hL, -, -, -, -, -, hcw, hout⟩ :=
      getActionOut_struct hiddenSize 0 [2, 3] cs ts enc mask hm5 hbm2 (by simp)
    exact ⟨(d0.exported, d1.exported, comb), hout, by simpa using hcw⟩
  · intro L hL d hd
    rw [getDists_mk_eq hiddenSize 0 [2, 3] cs ts enc mask hm5] at hL
    have hLd : L = branchInstances [2, 3] enc mask := by
      simpa using (Option.some_injective _ hL).symm
    exact branchInstances_not_gaussian [2, 3] enc mask d (hLd ▸ hd)

/-- C5: construction produces the SplitPlan `[C]` (iff `C > 0`) followed by
one entry of 1 per discrete branch, a pure function of the spec whose entries
sum to `C + D`; no error is possible. -/
theorem splitPlan_of_construction (hiddenSize C : Nat) (branches : List Nat)
    (cs ts : Bool) :
    (mkActionModel hiddenSize ⟨C, branches⟩ cs ts).splitList
        = (if 0 < C then [C] else []) ++ List.replicate branches.length 1 ∧
    (mkActionModel hiddenSize ⟨C, branches⟩ cs ts).splitList.sum
        = C + branches.length := by
  have heq : (mkActionModel hiddenSize ⟨C, branches⟩ cs ts).splitList
      = (if 0 < C then [C] else []) ++ List.replicate branches.length 1 := by
    rcases Nat.eq_zero_or_pos branches.length with hD | hD
    · by_cases hC : 0 < C <;>
        simp [mkActionModel, ActionSpec.discreteActionSize, hC, hD]
    · by_cases hC : 0 < C <;>
        simp [mkActionModel, ActionSpec.discreteActionSize, hC, hD]
  refine ⟨heq, ?_⟩
  rw [heq]
  by_cases hC : 0 < C <;> simp [hC, List.sum_replicate] <;> omega

/-- C6: `_get_dists` yields exactly one continuous instance iff
`continuous_size > 0`, placed first, followed by exactly one categorical
instance per discrete branch in branch order, each built from its branch's
size and its branch's slice of the action mask; every call path obtains its
instances through this one function. -/
theorem getDists_count_and_order (hiddenSize C : Nat) (branches : List Nat)
    (cs ts : Bool) (enc mask : MT)
    (hm : 0 < branches.length → mask.width = branches.sum) :
    ∃ L, (mkActionModel hiddenSize ⟨C, branches⟩ cs ts).getDists enc mask = some L ∧
      L = (if 0 < C then [DistInstance.gauss (mkGaussianInst C cs ts enc)] else [])
          ++ branchInstances branches enc mask ∧
      L.countP (fun d => d.isGaussian) = (if 0 < C then 1 else 0) ∧
      L.length = (if 0 < C then 1 else 0) + branches.length ∧
      (∀ k, k < branches.length →
        L.get? ((if 0 < C then 1 else 0) + k)
          = some (.cat (mkCategoricalInst (branches.getD k 0) enc
              (mask.slice (sumBefore branches k) (branches.getD k 0))))) := by
  refine ⟨_, getDists_mk_eq hiddenSize C branches cs ts enc mask hm, rfl, ?_, ?_, ?_⟩
  · have hz : (branchInstances branches enc mask).countP (fun d => d.isGaussian) = 0 := by
      apply List.countP_eq_zero.mpr
      intro d hd
      simp [branchInstances_not_gaussian branches enc mask d hd]
    by_cases hC : 0 < C
    · rw [if_pos hC, if_pos hC, List.countP_append, hz]
      rfl
    · rw [if_neg hC, if_neg hC, List.countP_append, hz]
      rfl
  · by_cases hC : 0 < C <;> simp [hC, branchInstances_length] <;> omega
  · intro k hk
    have hget := branchInstances_get? branches enc mask k hk
    by_cases hC : 0 < C
    · simp only [if_pos hC]
      simp only [List.get?_eq_getElem?] at hget ⊢
      rw [List.getElem?_append_right (by simp)]
      simpa using hget
    · simp only [if_neg hC]
      simpa [hC] using hget

/-- C7 (code bug): at the failing input (two continuous dimensions, one
discrete branch, batch 1), `sample_and_score` does return an action of width
`continuous_size + discrete_size = 3` with `[B]`-shaped log-prob and entropy,
but `evaluate` fails instead of returning `[B]`-shaped tensors, because its
per-column decomposition of the continuous block mispairs the sub-actions
with the distribution instances. -/
theorem forward_shaped_evaluate_fails :
    (modelC2D1.forward zeroNoise cexEnc cexMask3).map
        (fun r => (r.1.width, r.1.batch, r.2.1.length, r.2.2.length))
      = some (3, 1, 1, 1) ∧
    modelC2D1.continuousActSize + modelC2D1.discreteActSize = 3 ∧
    modelC2D1.evaluate zeroNoise cexEnc cexMask3 cexActions3 = none := by
  decide

/-- C8: whenever the actions tensor's last-dimension width differs from the
sum of the SplitPlan, `evaluate` fails with a shape-mismatch error (it returns
no partial result: the whole call yields nothing). -/
theorem evaluate_shape_mismatch (hiddenSize : Nat) (spec : ActionSpec) (cs ts : Bool)
    (g : Nat → Int) (enc mask actions : MT)
    (hw : actions.width ≠ (mkActionModel hiddenSize spec cs ts).splitList.sum) :
    (mkActionModel hiddenSize spec cs ts).evaluate g enc mask actions = none := by
  cases h : (mkActionModel hiddenSize spec cs ts).getDists enc mask with
  | none => simp [ActionModel.evaluate, h]
  | some L => simp [ActionModel.evaluate, h, splitCols, hw]

/-- C9: scoring is deterministic — `evaluate` never reads the module's noise
source, so two calls with the same encoding, mask and actions (and any
generator states) return identical log-prob and entropy. -/
theorem evaluate_rng_independent (m : ActionModel) (g g' : Nat → Int)
    (enc mask actions : MT) :
    m.evaluate g enc mask actions = m.evaluate g' enc mask actions := rfl

/-- C10 (counterexample): constructing with `continuous_size = 0` and no
discrete branches does succeed, holding an empty distribution list; but the
subsequent operations do not all work over zero instances — `get_action_out`
fails on its index-0 access. -/
theorem degenerate_export_fails :
    modelC0D0.getDists cexEnc cexMask0 = some [] ∧
    modelC0D0.getActionOut cexEnc cexMask0 = none := by
  decide

/-- C10 (amended): construction with `continuous_size = 0` and
`discrete_size = 0` succeeds without any error — there is no DegenerateSpec
guard — and the module holds an empty distribution list and an empty split
plan, so `_get_dists` yields zero instances on every input; but the
subsequent operations that index or concatenate over the instance list
(`get_action_out`, and the final concatenation of `forward`) then fail rather
than work. -/
theorem degenerate_construction_unguarded (hiddenSize : Nat) (cs ts : Bool) :
    (mkActionModel hiddenSize ⟨0, []⟩ cs ts).distributions = [] ∧
    (mkActionModel hiddenSize ⟨0, []⟩ cs ts).splitList = [] ∧
    (∀ enc mask : MT,
      (mkActionModel hiddenSize ⟨0, []⟩ cs ts).getDists enc mask = some []) ∧
    (∀ enc mask : MT,
      (mkActionModel hiddenSize ⟨0, []⟩ cs ts).getActionOut enc mask = none) ∧
    (∀ (g : Nat → Int) (enc mask : MT),
      (mkActionModel hiddenSize ⟨0, []⟩ cs ts).forward g enc mask = none) := by
  have hd : (mkActionModel hiddenSize ⟨0, []⟩ cs ts).distributions = [] := by
    simp [mkActionModel, ActionSpec.discreteActionSize]
  have hg : ∀ enc mask : MT,
      (mkActionModel hiddenSize ⟨0, []⟩ cs ts).getDists enc mask = some [] := by
    intro enc mask
    simp [ActionModel.getDists, hd, List.foldlM]
  refine ⟨hd, ?_, hg, ?_, ?_⟩
  · simp [mkActionModel, ActionSpec.discreteActionSize]
  · intro enc mask
    simp [ActionModel.getActionOut, hg]
  · intro g enc mask
    simp [ActionModel.forward, hg, sampleAction, getProbsAndEntropy, catList1,
      List.foldlM, List.mapM, List.mapM.loop, sumCols]

/-! Witnesses for the claim theorems that carry hypotheses. -/

/-- Witness for C2 (amended) at a concrete module and inputs. -/
theorem getActionOut_positional_witness :
    ∃ L d0 d1 comb,
      (mkActionModel 1 ⟨1, [2, 3]⟩ false false).getDists cexEnc cexMask5 = some L ∧
      L.get? 0 = some d0 ∧ L.get? 1 = some d1 ∧
      catList1 (L.map (fun d => d.exported)) = some comb ∧
      (mkActionModel 1 ⟨1, [2, 3]⟩ false false).getActionOut cexEnc cexMask5
        = some (d0.exported, d1.exported, comb) ∧
      (0 < 1 → 0 < ([2, 3] : List Nat).length →
        d1 = .cat (mkCategoricalInst (([2, 3] : List Nat).getD 0 0) cexEnc
          (cexMask5.slice 0 (([2, 3] : List Nat).getD 0 0)))) :=
  getActionOut_positional 1 1 [2, 3] false false cexEnc cexMask5
    (fun _ => by decide) (fun _ => by decide) (by decide)

/-- Witness for C3 (amended): one-instance module fails, two-instance module
succeeds. -/
theorem getActionOut_none_iff_witness :
    ((mkActionModel 1 ⟨3, []⟩ false false).getActionOut cexEnc cexMask0 = none
      ↔ (if 0 < 3 then 1 else 0) + ([] : List Nat).length < 2) ∧
    ((mkActionModel 1 ⟨0, [2, 3]⟩ false false).getActionOut cexEnc cexMask5 = none
      ↔ (if 0 < 0 then 1 else 0) + ([2, 3] : List Nat).length < 2) :=
  ⟨getActionOut_none_iff 1 3 [] false false cexEnc cexMask0
      (fun h => absurd h (by decide)) (fun h => absurd h (by decide)),
    getActionOut_none_iff 1 0 [2, 3] false false cexEnc cexMask5
      (fun _ => by decide) (fun _ => by decide)⟩

/-- Witness for C4 at a concrete batch-1 encoding and all-ones mask. -/
theorem boundary_discrete_only_witness :
    (mkActionModel 1 ⟨0, [2, 3]⟩ false false).splitList = [1, 1] ∧
    (mkActionModel 1 ⟨0, [2, 3]⟩ false false).splitList.sum = 2 ∧
    (∃ t, (mkActionModel 1 ⟨0, [2, 3]⟩ false false).getActionOut cexEnc cexMask5
        = some t ∧ t.2.2.width = 2) ∧
    (∀ L, (mkActionModel 1 ⟨0, [2, 3]⟩ false false).getDists cexEnc cexMask5 = some L →
      ∀ d ∈ L, d.isGaussian = false) :=
  boundary_discrete_only 1 false false cexEnc cexMask5 (by decide) (by decide)

/-- Witness for C6 at a concrete one-continuous, one-branch module. -/
theorem getDists_count_and_order_witness :
    ∃ L, (mkActionModel 1 ⟨1, [2]⟩ false false).getDists cexEnc cexMask2 = some L ∧
      L = (if 0 < 1 then [DistInstance.gauss (mkGaussianInst 1 false false cexEnc)]
            else []) ++ branchInstances [2] cexEnc cexMask2 ∧
      L.countP (fun d => d.isGaussian) = (if 0 < 1 then 1 else 0) ∧
      L.length = (if 0 < 1 then 1 else 0) + ([2] : List Nat).length ∧
      (∀ k, k < ([2] : List Nat).length →
        L.get? ((if 0 < 1 then 1 else 0) + k)
          = some (.cat (mkCategoricalInst (([2] : List Nat).getD k 0) cexEnc
              (cexMask2.slice (sumBefore [2] k) (([2] : List Nat).getD k 0))))) :=
  getDists_count_and_order 1 1 [2] false false cexEnc cexMask2 (fun _ => by decide)

/-- Witness for C8: a width-0 actions tensor against a SplitPlan of total
width 1 makes `evaluate` fail. -/
theorem evaluate_shape_mismatch_witness :
    (mkActionModel 1 ⟨1, []⟩ false false).evaluate zeroNoise cexEnc cexMask0 cexActions0
      = none :=
  evaluate_shape_mismatch 1 ⟨1, []⟩ false false zeroNoise cexEnc cexMask0 cexActions0
    (by decide)

end ActionModelProof
